import Mathlib

/-!
# Verification of the Hopscotch hash table (src/hash_table.hpp)

Shallow embedding of the Hopscotch-hashing `ht::HashTable` from
`src/hash_table.hpp`, instantiated at `Key = Value = Nat`, together with
theorems settling the frozen claims.

Modelling conventions:
* C++ `size_t` arithmetic is modelled by `Nat` (no value in the program
  ever approaches 2^64; `i -= NBHD_SIZE - 1` only happens with
  `i >= NBHD_SIZE`, so no wrap-around occurs on any path we model).
* `double` load factors are modelled as exact rationals `ℚ`.  Every
  concrete comparison appearing in a theorem below is robust under IEEE
  rounding of the corresponding decimal literals.
* The pluggable hash function (`HashFunction`, a `std::function`) is the
  `hashFn` field; all scenarios inject a custom function, which is part of
  the public constructor interface.  The default byte-representation hash
  is never needed by any claim and is kept abstract (a parameter).
* `std::shared_ptr<std::pair<Key,Value>>` buckets: within one table every
  bucket pointer is uniquely owned (buckets are only created, moved and
  reset), so the single-table operations are modelled with value slots
  `Option (Nat × Nat)`.  Cross-table aliasing created by the copy
  constructor is observable, so the copy operations are additionally
  modelled with an explicit heap of cells and address-valued slots
  (`ShHT` below).
* C++ exceptions are modelled by the `Res` result type; a genuinely
  non-terminating loop (the `while` in `resize` whose occupied branch
  increments the outer index `i` and can therefore never change its own
  exit condition) is modelled by fuel whose exhaustion yields `Res.div`;
  on every terminating path the supplied fuel suffices.
-/

/-- Constant `NBHD_SIZE` from hash_table.hpp line 30 (the constant H). -/
def NBHD_SIZE : Nat := 32

/-- Constant `INITIAL_CPTY` from hash_table.hpp line 31. -/
def INITIAL_CPTY : Nat := 32

/-- Constant `MAX_LOAD_FACTOR` (0.75) from hash_table.hpp line 28 (`mkRat` is the
exact rational 3/4; stated via `mkRat` so that proofs can evaluate it). -/
def MAX_LOAD_FACTOR : ℚ := mkRat 3 4

/-- Constant `MIN_LOAD_FACTOR` (0.25) from hash_table.hpp line 29. -/
def MIN_LOAD_FACTOR : ℚ := mkRat 1 4

/-- A slot array: each slot holds nothing or one entry (generic so the
same accessors serve the value-slot model and the address-slot model). -/
abbrev Slots (α : Type) := List (Option α)

/-- Read slot `i` (`table[i]`); out-of-range reads yield `none`. -/
def tget {α : Type} (l : Slots α) (i : Nat) : Option α :=
  l.getD i none

/-- Write slot `i` (`table[i] = v` / `table[i].reset()`). -/
def tset {α : Type} (l : Slots α) (i : Nat) (v : Option α) : Slots α :=
  l.set i v

/-- The table state of `ht::HashTable<Key,Value>` at `Key = Value = Nat`
(fields of lines 381-386). -/
structure HT where
  table : Slots (Nat × Nat)
  capacity : Nat
  size : Nat
  maxLoadFactor : ℚ
  minLoadFactor : ℚ
  hashFn : Nat → Nat

instance : Inhabited HT :=
  ⟨{ table := [], capacity := 0, size := 0,
     maxLoadFactor := MAX_LOAD_FACTOR, minLoadFactor := MIN_LOAD_FACTOR,
     hashFn := fun k => k }⟩

/-- The exception classes of hash_table.hpp (lines 51-99). -/
inductive HTErr where
  | invalidLoadFactors
  | invalidKeyType
  | resizeFailed
  | insertionFailed
  deriving DecidableEq

/-- Outcome of an operation on state `σ`: normal return with value and
post-state, a thrown exception with the state at the throw, or
divergence (an infinite loop). -/
inductive Res (σ : Type) (α : Type) where
  | ok (a : α) (st : σ)
  | err (e : HTErr) (st : σ)
  | div

/-- The post-state an outcome leaves behind, when there is one. -/
def Res.state? {σ α : Type} : Res σ α → Option σ
  | .ok _ st => some st
  | .err _ st => some st
  | .div => none

/-- Member `hash(k, range)` (lines 410-431): the injected function's value
modulo `range`.  (The inner default hash already reduces mod `range`;
the final `% range` at line 430 makes the result independent of that,
so only the trailing reduction matters for the model.) -/
def HT.hash (st : HT) (k range : Nat) : Nat :=
  st.hashFn k % range

/-- Member `maxLoadFactorExceeded` (lines 514-516): the exact rational quotient
`size/capacity` (written `mkRat size capacity`, which equals
`(size : ℚ) / capacity`, see `mkRat_natCast_div` below) compared with the
threshold. -/
def HT.maxLoadFactorExceeded (st : HT) : Bool :=
  decide (mkRat st.size st.capacity > st.maxLoadFactor)

/-- Member `minLoadFactorExceeded` (lines 522-524). -/
def HT.minLoadFactorExceeded (st : HT) : Bool :=
  decide (mkRat st.size st.capacity < st.minLoadFactor)

/-- The scan loop of `contains` (lines 187-191): `do { ... } while (i <
NBHD_SIZE)`; `fuel` counts the remaining iterations, so the loop runs
for `i = 0 .. NBHD_SIZE-1`. -/
def containsLoop (st : HT) (k h : Nat) : Nat → Nat → Bool
  | _, 0 => false
  | i, fuel + 1 =>
    match tget st.table ((h + i) % st.capacity) with
    | some p => if p.1 = k then true else containsLoop st k h (i + 1) fuel
    | none => containsLoop st k h (i + 1) fuel

/-- Member `contains` (lines 184-194). -/
def HT.contains (st : HT) (k : Nat) : Bool :=
  containsLoop st k (st.hash k st.capacity) 0 NBHD_SIZE

/-- The scan loop of `getValue` (lines 204-208). -/
def getValueLoop (st : HT) (k h : Nat) : Nat → Nat → Option Nat
  | _, 0 => none
  | i, fuel + 1 =>
    match tget st.table ((h + i) % st.capacity) with
    | some p => if p.1 = k then some p.2 else getValueLoop st k h (i + 1) fuel
    | none => getValueLoop st k h (i + 1) fuel

/-- Member `getValue` (lines 201-211). -/
def HT.getValue (st : HT) (k : Nat) : Option Nat :=
  getValueLoop st k (st.hash k st.capacity) 0 NBHD_SIZE

/-! ## resize (lines 437-491) -/

/-- Outcome of the displacement `while` loop inside `resize`
(lines 466-482). -/
inductive RWOut where
  | placed (temp : Slots (Nat × Nat))
  | exit (temp : Slots (Nat × Nat))
  | div

/-- The first `do { ... } while (j < NBHD_SIZE)` of `resize`
(lines 452-459): place the migrating entry on the first empty slot of
its new neighborhood; returns the final `j` and the (possibly updated)
`temp` array. -/
def rScan (cap h : Nat) (entry : Nat × Nat) :
    Nat → Nat → Slots (Nat × Nat) → Nat × Slots (Nat × Nat)
  | j, 0, temp => (j, temp)
  | j, fuel + 1, temp =>
    match tget temp ((h + j) % cap) with
    | none => (j, tset temp ((h + j) % cap) (some entry))
    | some _ => rScan cap h entry (j + 1) fuel temp

/-- The displacement `while ((h + j) % capacity != h)` of `resize`
(lines 466-482).  In the occupied branch the C++ increments the OUTER
loop index `i` (line 481) instead of `j`; since neither `temp` nor `j`
changes there, the loop can then never leave that branch and never
terminates, which the model renders as `RWOut.div` once the fuel runs
out.  On every path that does terminate, `i` is unchanged, so the model
does not thread it. -/
def rWalk (cap h : Nat) (entry : Nat × Nat) :
    Nat → Nat → Slots (Nat × Nat) → RWOut
  | 0, _, _ => .div
  | fuel + 1, j, temp =>
    if (h + j) % cap = h then .exit temp
    else
      match tget temp ((h + j) % cap) with
      | none =>
        let j2 := j - (NBHD_SIZE - 1)
        let temp2 :=
          tset (tset temp ((h + j) % cap) (tget temp ((h + j2) % cap)))
            ((h + j2) % cap) none
        if j2 < NBHD_SIZE then .placed (tset temp2 ((h + j2) % cap) (some entry))
        else rWalk cap h entry fuel j2 temp2
      | some _ => rWalk cap h entry fuel j temp

/-- Result of the migration `for` loop of `resize` (lines 445-488). -/
inductive MigOut where
  | done (temp : Slots (Nat × Nat))
  | fail
  | div

/-- The migration `for (i = 0; i < oldCapacity; i++)` of `resize`
(lines 445-488); `rem` is the number of remaining indices.  After the
displacement `while` exits (by `break` or by its condition), line 485
throws `ResizeFailed` when `(h + i) % capacity == h`; in the non-throw
`RWOut.exit` case the entry at old index `i` is silently not placed. -/
def resizeGo (fn : Nat → Nat) (cap : Nat) (oldTable : Slots (Nat × Nat)) :
    Nat → Nat → Slots (Nat × Nat) → MigOut
  | _, 0, temp => .done temp
  | i, rem + 1, temp =>
    match tget oldTable i with
    | none => resizeGo fn cap oldTable (i + 1) rem temp
    | some entry =>
      let h := fn entry.1 % cap
      let s := rScan cap h entry 0 NBHD_SIZE temp
      if s.1 < NBHD_SIZE then resizeGo fn cap oldTable (i + 1) rem s.2
      else
        match rWalk cap h entry (cap + NBHD_SIZE + 2) s.1 s.2 with
        | .placed temp2 =>
          if (h + i) % cap = h then .fail
          else resizeGo fn cap oldTable (i + 1) rem temp2
        | .exit temp2 =>
          if (h + i) % cap = h then .fail
          else resizeGo fn cap oldTable (i + 1) rem temp2
        | .div => .div

/-- Member `resize` (lines 437-491).  The `capacity` field is overwritten with
`newCapacity` at line 441, BEFORE any entry is migrated; when
`ResizeFailed` is thrown, the object keeps the new `capacity` while
`table` is still the old array (the `swap` at line 490 never runs). -/
def HT.resize (st : HT) (newCapacity : Nat) : Res HT Unit :=
  match resizeGo st.hashFn newCapacity st.table 0 st.capacity
      (List.replicate newCapacity none) with
  | .done temp => .ok () { st with capacity := newCapacity, table := temp }
  | .fail => .err .resizeFailed { st with capacity := newCapacity }
  | .div => .div

/-! ## insert (lines 237-293) -/

/-- Lines 243-254 / 274-285: place the new entry at offset `i` of the
neighborhood of `h` in the array `tbl`, increment `size`, then consult
the capacity controller (a grow to `2*capacity` whose `ResizeFailed` is
caught, printed and rethrown). -/
def afterPlace (st : HT) (k v h i : Nat) (tbl : Slots (Nat × Nat)) : Res HT Bool :=
  let st1 : HT :=
    { st with table := tset tbl ((h + i) % st.capacity) (some (k, v)),
              size := st.size + 1 }
  if st1.maxLoadFactorExceeded then
    match st1.resize (2 * st1.capacity) with
    | .ok _ st2 => .ok true st2
    | .err e st2 => .err e st2
    | .div => .div
  else .ok true st1

/-- The displacement `while ((h + i) % capacity != h)` of `insert`
(lines 265-290), threading the mutated array `tbl`; reaching the loop
exit throws `InsertionFailed` (line 292) with the table as mutated so
far. -/
def insertWalk (st : HT) (k v h : Nat) :
    Nat → Nat → Slots (Nat × Nat) → Res HT Bool
  | 0, _, _ => .div
  | fuel + 1, i, tbl =>
    if (h + i) % st.capacity = h then
      .err .insertionFailed { st with table := tbl }
    else
      match tget tbl ((h + i) % st.capacity) with
      | none =>
        let i2 := i - (NBHD_SIZE - 1)
        let tbl2 :=
          tset (tset tbl ((h + i) % st.capacity) (tget tbl ((h + i2) % st.capacity)))
            ((h + i2) % st.capacity) none
        if i2 < NBHD_SIZE then afterPlace st k v h i2 tbl2
        else insertWalk st k v h fuel i2 tbl2
      | some _ => insertWalk st k v h fuel (i + 1) tbl

/-- The neighborhood `do { ... } while (i < NBHD_SIZE)` of `insert`
(lines 241-261): place on the FIRST empty slot, reject when the scanned
slot already holds the key, else fall through to the displacement walk
with `i = NBHD_SIZE`.  The walk's fuel dominates its longest
terminating trajectory (at most `capacity - NBHD_SIZE` increments
followed by at most `capacity/(NBHD_SIZE-1) + 1` hops). -/
def insertLoop (st : HT) (k v h : Nat) : Nat → Nat → Res HT Bool
  | i, 0 => insertWalk st k v h (2 * st.capacity + 2 * NBHD_SIZE + 2) i st.table
  | i, fuel + 1 =>
    match tget st.table ((h + i) % st.capacity) with
    | none => afterPlace st k v h i st.table
    | some p => if p.1 = k then .ok false st else insertLoop st k v h (i + 1) fuel

/-- Member `insert` (lines 237-293). -/
def HT.insert (st : HT) (k v : Nat) : Res HT Bool :=
  insertLoop st k v (st.hash k st.capacity) 0 NBHD_SIZE

/-! ## remove (lines 300-320) -/

/-- The scan loop of `remove` (lines 303-317): clear the first slot of
the neighborhood holding the key, decrement `size`, then consult the
capacity controller (a shrink to `(capacity+1)/2`, only when `capacity >
INITIAL_CPTY`). -/
def removeLoop (st : HT) (k h : Nat) : Nat → Nat → Res HT (Option Nat)
  | _, 0 => .ok none st
  | i, fuel + 1 =>
    match tget st.table ((h + i) % st.capacity) with
    | some p =>
      if p.1 = k then
        let st1 : HT :=
          { st with table := tset st.table ((h + i) % st.capacity) none,
                    size := st.size - 1 }
        if st1.minLoadFactorExceeded ∧ INITIAL_CPTY < st1.capacity then
          match st1.resize ((st1.capacity + 1) / 2) with
          | .ok _ st2 => .ok (some p.2) st2
          | .err e st2 => .err e st2
          | .div => .div
        else .ok (some p.2) st1
      else removeLoop st k h (i + 1) fuel
    | none => removeLoop st k h (i + 1) fuel

/-- Member `remove` (lines 300-320). -/
def HT.remove (st : HT) (k : Nat) : Res HT (Option Nat) :=
  removeLoop st k (st.hash k st.capacity) 0 NBHD_SIZE

/-! ## setLoadFactors (lines 150-161) -/

/-- Member `setLoadFactors(max, min)` (lines 150-161): validate, install both
thresholds, then re-evaluate the two load-factor conditions and resize
at most once. -/
def HT.setLoadFactors (st : HT) (mx mn : ℚ) : Res HT Unit :=
  if mn ≤ 0 ∨ 1 < mn ∨ mx ≤ 0 ∨ 1 < mx ∨ mx ≤ mn then
    .err .invalidLoadFactors st
  else
    let st1 : HT := { st with minLoadFactor := mn, maxLoadFactor := mx }
    if st1.maxLoadFactorExceeded then
      match st1.resize (2 * st1.capacity) with
      | .ok _ st2 => .ok () st2
      | .err e st2 => .err e st2
      | .div => .div
    else if st1.minLoadFactorExceeded ∧ INITIAL_CPTY < st1.capacity then
      match st1.resize ((st1.capacity + 1) / 2) with
      | .ok _ st2 => .ok () st2
      | .err e st2 => .err e st2
      | .div => .div
    else .ok () st1

/-! ## construction (lines 123-135) -/

/-- Observable steps of the constructor, in program order. -/
inductive CtorStep where
  | allocSlots (n : Nat)
  | keyCheckFail
  deriving DecidableEq

/-- The constructor (lines 123-135), instrumented with its observable
effect order: the slot array is allocated by `table.resize(capacity)` at
line 130 and only AFTERWARDS (lines 132-134) is the key-type /
hash-function check performed and the configuration error thrown.
`contiguousKey` models `is_fundamental_v || is_pointer_v || is_array_v`
for the key type; `defaultHash` stands for the default
byte-representation hash (lines 412-428), never interrogated by any
claim. -/
def constructTrace (customHashFn : Option (Nat → Nat)) (contiguousKey : Bool)
    (mnLF mxLF : ℚ) (expectedSize : Nat) (defaultHash : Nat → Nat) :
    List CtorStep × Option HT :=
  let cap := if expectedSize < INITIAL_CPTY then INITIAL_CPTY else expectedSize
  if customHashFn.isNone && !contiguousKey then
    ([CtorStep.allocSlots cap, CtorStep.keyCheckFail], none)
  else
    ([CtorStep.allocSlots cap],
     some { table := List.replicate cap none, capacity := cap, size := 0,
            maxLoadFactor := mxLF, minLoadFactor := mnLF,
            hashFn := customHashFn.getD defaultHash })

/-- The constructed table (or `none` when the constructor throws). -/
def HT.construct (customHashFn : Option (Nat → Nat)) (contiguousKey : Bool)
    (mnLF mxLF : ℚ) (expectedSize : Nat) (defaultHash : Nat → Nat) : Option HT :=
  (constructTrace customHashFn contiguousKey mnLF mxLF expectedSize defaultHash).2

/-! ## scenario plumbing and the hop invariant -/

/-- Run an insert and keep the post-state whatever the outcome. -/
def stepInsert (st : HT) (kv : Nat × Nat) : HT :=
  match st.insert kv.1 kv.2 with
  | .ok _ s => s
  | .err _ s => s
  | .div => st

/-- Run a list of inserts. -/
def stepInserts (st : HT) (l : List (Nat × Nat)) : HT :=
  l.foldl stepInsert st

/-- Slot `j` satisfies the hop invariant: empty, or its occupant lies
within `NBHD_SIZE` of its home index. -/
def slotOk (st : HT) (j : Nat) : Bool :=
  match tget st.table j with
  | none => true
  | some p =>
    decide ((j + st.capacity - st.hash p.1 st.capacity) % st.capacity < NBHD_SIZE)

/-- The hop invariant of the spec, as a boolean over the whole table. -/
def hopInvB (st : HT) : Bool :=
  (List.range st.table.length).all (slotOk st)

/-- Run a remove and keep the post-state whatever the outcome. -/
def stepRemove (st : HT) (k : Nat) : HT :=
  match st.remove k with
  | .ok _ s => s
  | .err _ s => s
  | .div => st

/-- Run a resize and keep the post-state whatever the outcome. -/
def stepResize (st : HT) (n : Nat) : HT :=
  match st.resize n with
  | .ok _ s => s
  | .err _ s => s
  | .div => st

/-- Run a setLoadFactors and keep the post-state whatever the outcome. -/
def stepSetLF (st : HT) (mx mn : ℚ) : HT :=
  match st.setLoadFactors mx mn with
  | .ok _ s => s
  | .err _ s => s
  | .div => st

/-- Whether an insert outcome is a normal `true` return. -/
def isOkTrue : Res HT Bool → Bool
  | .ok true _ => true
  | _ => false

/-! ### Scenario for claim C1: a displacement hop breaks the hop invariant.
`HashTable<int,int>` with custom hash `fn ≡ 0` and `expectedSize = 64`;
insert keys 1..33 (value = key).  The 33rd insert finds the neighborhood
of home 0 full, hops the occupant of index 1 (key 2) to index result
32 = home + 32 without any home-coverage check, and places key 33 at
index 1. -/

def c1Init : HT :=
  (HT.construct (some fun _ => 0) true MIN_LOAD_FACTOR MAX_LOAD_FACTOR 64
    (fun k => k)).getD default

def c1Final : HT :=
  stepInserts c1Init ((List.range 33).map (fun i => (i + 1, i + 1)))

/-! ### Scenario for claim C2: a table whose displacement search is
exhausted.  Custom hash `fn ≡ 0`, `expectedSize = 32`, load factors
(min 0.25, max 1.0); inserting keys 0..31 fills all 32 slots without
ever exceeding the max load factor; a 33rd insert then throws
`InsertionFailed` directly. -/

def c2Tbl : HT :=
  stepInserts
    ((HT.construct (some fun _ => 0) true MIN_LOAD_FACTOR 1 32 (fun k => k)).getD default)
    ((List.range 32).map (fun i => (i, i)))

/-- The table after the grow to 64 that the capacity controller WOULD
have performed (showing such a resize succeeds and makes room). -/
def c2Resized : HT := stepResize c2Tbl 64

/-! ### Scenario for claim C3: a failing shrink leaves `capacity`
changed.  Custom hash `fn k = k`, `expectedSize = 64`, insert keys
0..32; `setLoadFactors(max = 1.0, min = 0.9)` then triggers a shrink to
(64+1)/2 = 32 which must migrate 33 entries into 32 slots: old index 32
(key 32, new home 0) finds its new neighborhood full and
`(h + i) % capacity == h` holds, so `ResizeFailed` is thrown — with the
`capacity` field already overwritten to 32. -/

def c3Pre : HT :=
  stepInserts
    ((HT.construct (some fun k => k) true MIN_LOAD_FACTOR MAX_LOAD_FACTOR 64 (fun k => k)).getD default)
    ((List.range 33).map (fun i => (i, i)))

/-! ### Scenario for claim C4: a duplicate key is inserted.  Custom hash
`fn ≡ 0`, default construction: insert(1,10) lands at index 0,
insert(0,11) at index 1, remove(1) frees index 0, and insert(0,12) then
places a SECOND entry with key 0 at index 0 and returns true. -/

def c4Pre : HT :=
  stepRemove
    (stepInsert
      (stepInsert
        ((HT.construct (some fun _ => 0) true MIN_LOAD_FACTOR MAX_LOAD_FACTOR 32 (fun k => k)).getD
          default)
        (1, 10))
      (0, 11))
    1

def c4Post : HT := stepInsert c4Pre (0, 12)

/-! ### Scenario for claim C5: a successful insert whose triggered grow
displaces the fresh entry out of its own neighborhood.  Custom hash:
keys 101..132 and 200 map to 64, everything else to itself;
`expectedSize = 64`.  After inserting keys 101..132 (filling indices
0..31, home 64 % 64 = 0) and 16 fillers 33..48, inserting key 200
displaces key 102 to index 32, places 200 at index 1, and exceeds the
max load factor (49/64 > 0.75).  The triggered grow to 128 migrates
old index 32 (key 102, new home 64) into a full neighborhood 64..95 and
hops the occupant of index 65 — which is the just-inserted key 200 —
to index 96 = home + 32.  `insert` returns true, yet `getValue(200)`
and `contains(200)` fail. -/

def c5Hash : Nat → Nat :=
  fun k => if 101 ≤ k ∧ k ≤ 132 then 64 else if k = 200 then 64 else k

def c5Pre : HT :=
  stepInserts
    ((HT.construct (some c5Hash) true MIN_LOAD_FACTOR MAX_LOAD_FACTOR 64 (fun k => k)).getD default)
    (((List.range 32).map (fun i => (101 + i, 101 + i))) ++
      ((List.range 16).map (fun i => (33 + i, 33 + i))))

def c5Post : HT := stepInsert c5Pre (200, 5)

/-! ### Scenario for claim C6: a completed triggered resize that leaves
the load factor above the maximum.  Fresh table (capacity 32, custom
hash `fn k = k`), `setLoadFactors(max = 0.01, min = 0.005)` (valid:
both in (0,1], max > min), then one insert: 1/32 > 0.01 triggers the
grow to 64, which completes — and 1/64 > 0.01 still. -/

def c6Pre : HT :=
  stepSetLF
    ((HT.construct (some fun k => k) true MIN_LOAD_FACTOR MAX_LOAD_FACTOR 32 (fun k => k)).getD default)
    (mkRat 1 100) (mkRat 1 200)

def c6Post : HT := stepInsert c6Pre (0, 0)

/-! ### Scenario for claim C7: a shrink drops the capacity to 17 < H.
Construct with `expectedSize = 33` (capacity 33 > INITIAL_CPTY), insert
one key, remove it: 0/33 < 0.25 and 33 > 32, so the table resizes to
(33+1)/2 = 17 — below both H = 32 and the configured initial
capacity 33. -/

def c7Pre : HT :=
  stepInsert
    ((HT.construct (some fun k => k) true MIN_LOAD_FACTOR MAX_LOAD_FACTOR 33 (fun k => k)).getD default)
    (0, 0)

def c7Post : HT := stepRemove c7Pre 0

/-! ## Shared-pointer model of the copy operations (claims about aliasing)

The buckets are `std::shared_ptr<std::pair<Key,Value>>`; the copy
constructor copies the pointer vector while `operator=` allocates fresh
cells.  To make that observable the same class is modelled once more
with an explicit heap of cells and address-valued slots. -/

/-- The heap of allocated `pair<Key,Value>` cells; an address is an
index into this list, and `make_shared` appends a cell. -/
abbrev Heap := List (Nat × Nat)

/-- State of `ht::HashTable` with each bucket as a heap address. -/
structure ShHT where
  table : Slots Nat
  capacity : Nat
  size : Nat
  maxLoadFactor : ℚ
  minLoadFactor : ℚ
  hashFn : Nat → Nat

instance : Inhabited ShHT :=
  ⟨{ table := [], capacity := 0, size := 0,
     maxLoadFactor := MAX_LOAD_FACTOR, minLoadFactor := MIN_LOAD_FACTOR,
     hashFn := fun k => k }⟩

/-- Member `hash(k, range)` (lines 410-431), shared-pointer model. -/
def ShHT.hash (st : ShHT) (k range : Nat) : Nat :=
  st.hashFn k % range

/-- Member `maxLoadFactorExceeded` (lines 514-516), shared-pointer model. -/
def ShHT.maxLoadFactorExceeded (st : ShHT) : Bool :=
  decide (mkRat st.size st.capacity > st.maxLoadFactor)

/-- Dereference a bucket address (`*p`); reading an unallocated address
never happens on the modelled paths. -/
def deref (heap : Heap) (a : Nat) : Nat × Nat :=
  heap.getD a (0, 0)

/-- The scan loop of `getValue` (lines 204-208), shared-pointer model:
`table[x] != nullptr && table[x]->first == k`. -/
def shGetValueLoop (heap : Heap) (st : ShHT) (k h : Nat) : Nat → Nat → Option Nat
  | _, 0 => none
  | i, fuel + 1 =>
    match tget st.table ((h + i) % st.capacity) with
    | some a =>
      if (deref heap a).1 = k then some (deref heap a).2
      else shGetValueLoop heap st k h (i + 1) fuel
    | none => shGetValueLoop heap st k h (i + 1) fuel

/-- Member `getValue` (lines 201-211), shared-pointer model. -/
def ShHT.getValue (heap : Heap) (st : ShHT) (k : Nat) : Option Nat :=
  shGetValueLoop heap st k (st.hash k st.capacity) 0 NBHD_SIZE

/-- The scan loop of the private `getBucket` (lines 501-505): return the
bucket (address) whose entry has key `k`. -/
def shGetBucketLoop (heap : Heap) (st : ShHT) (k h : Nat) : Nat → Nat → Option Nat
  | _, 0 => none
  | i, fuel + 1 =>
    match tget st.table ((h + i) % st.capacity) with
    | some a =>
      if (deref heap a).1 = k then some a
      else shGetBucketLoop heap st k h (i + 1) fuel
    | none => shGetBucketLoop heap st k h (i + 1) fuel

/-- Member `getBucket` (lines 498-508), shared-pointer model. -/
def ShHT.getBucket (heap : Heap) (st : ShHT) (k : Nat) : Option Nat :=
  shGetBucketLoop heap st k (st.hash k st.capacity) 0 NBHD_SIZE

/-- The first `do {} while` of `resize` (lines 452-459), shared-pointer
model: the migrating bucket (an address) is moved, not reallocated. -/
def shRScan (cap h : Nat) (entry : Nat) :
    Nat → Nat → Slots Nat → Nat × Slots Nat
  | j, 0, temp => (j, temp)
  | j, fuel + 1, temp =>
    match tget temp ((h + j) % cap) with
    | none => (j, tset temp ((h + j) % cap) (some entry))
    | some _ => shRScan cap h entry (j + 1) fuel temp

/-- Outcome of the displacement loop of `resize`, shared-pointer model. -/
inductive ShRWOut where
  | placed (temp : Slots Nat)
  | exit (temp : Slots Nat)
  | div

/-- The displacement `while` of `resize` (lines 466-482), shared-pointer
model (same control structure as `rWalk`). -/
def shRWalk (cap h : Nat) (entry : Nat) :
    Nat → Nat → Slots Nat → ShRWOut
  | 0, _, _ => .div
  | fuel + 1, j, temp =>
    if (h + j) % cap = h then .exit temp
    else
      match tget temp ((h + j) % cap) with
      | none =>
        let j2 := j - (NBHD_SIZE - 1)
        let temp2 :=
          tset (tset temp ((h + j) % cap) (tget temp ((h + j2) % cap)))
            ((h + j2) % cap) none
        if j2 < NBHD_SIZE then .placed (tset temp2 ((h + j2) % cap) (some entry))
        else shRWalk cap h entry fuel j2 temp2
      | some _ => shRWalk cap h entry fuel j temp

/-- Result of the migration loop of `resize`, shared-pointer model. -/
inductive ShMigOut where
  | done (temp : Slots Nat)
  | fail
  | div

/-- The migration `for` loop of `resize` (lines 445-488), shared-pointer
model: `hash(table[i]->first, capacity)` dereferences the bucket. -/
def shResizeGo (heap : Heap) (fn : Nat → Nat) (cap : Nat) (oldTable : Slots Nat) :
    Nat → Nat → Slots Nat → ShMigOut
  | _, 0, temp => .done temp
  | i, rem + 1, temp =>
    match tget oldTable i with
    | none => shResizeGo heap fn cap oldTable (i + 1) rem temp
    | some entry =>
      let h := fn (deref heap entry).1 % cap
      let s := shRScan cap h entry 0 NBHD_SIZE temp
      if s.1 < NBHD_SIZE then shResizeGo heap fn cap oldTable (i + 1) rem s.2
      else
        match shRWalk cap h entry (cap + NBHD_SIZE + 2) s.1 s.2 with
        | .placed temp2 =>
          if (h + i) % cap = h then .fail
          else shResizeGo heap fn cap oldTable (i + 1) rem temp2
        | .exit temp2 =>
          if (h + i) % cap = h then .fail
          else shResizeGo heap fn cap oldTable (i + 1) rem temp2
        | .div => .div

/-- Member `resize` (lines 437-491), shared-pointer model; only pointers move,
the heap is untouched. -/
def ShHT.resize (heap : Heap) (st : ShHT) (newCapacity : Nat) : Res ShHT Unit :=
  match shResizeGo heap st.hashFn newCapacity st.table 0 st.capacity
      (List.replicate newCapacity none) with
  | .done temp => .ok () { st with capacity := newCapacity, table := temp }
  | .fail => .err .resizeFailed { st with capacity := newCapacity }
  | .div => .div

/-- Lines 243-254 / 274-285 of `insert`, shared-pointer model:
`make_shared<pair>(k, v)` allocates a fresh heap cell. -/
def shAfterPlace (heap : Heap) (st : ShHT) (k v h i : Nat) (tbl : Slots Nat) :
    Res (Heap × ShHT) Bool :=
  let heap1 := heap ++ [(k, v)]
  let st1 : ShHT :=
    { st with table := tset tbl ((h + i) % st.capacity) (some heap.length),
              size := st.size + 1 }
  if st1.maxLoadFactorExceeded then
    match ShHT.resize heap1 st1 (2 * st1.capacity) with
    | .ok _ st2 => .ok true (heap1, st2)
    | .err e st2 => .err e (heap1, st2)
    | .div => .div
  else .ok true (heap1, st1)

/-- The displacement walk of `insert` (lines 265-290), shared-pointer
model. -/
def shInsertWalk (heap : Heap) (st : ShHT) (k v h : Nat) :
    Nat → Nat → Slots Nat → Res (Heap × ShHT) Bool
  | 0, _, _ => .div
  | fuel + 1, i, tbl =>
    if (h + i) % st.capacity = h then
      .err .insertionFailed (heap, { st with table := tbl })
    else
      match tget tbl ((h + i) % st.capacity) with
      | none =>
        let i2 := i - (NBHD_SIZE - 1)
        let tbl2 :=
          tset (tset tbl ((h + i) % st.capacity) (tget tbl ((h + i2) % st.capacity)))
            ((h + i2) % st.capacity) none
        if i2 < NBHD_SIZE then shAfterPlace heap st k v h i2 tbl2
        else shInsertWalk heap st k v h fuel i2 tbl2
      | some _ => shInsertWalk heap st k v h fuel (i + 1) tbl

/-- The neighborhood scan of `insert` (lines 241-261), shared-pointer
model. -/
def shInsertLoop (heap : Heap) (st : ShHT) (k v h : Nat) :
    Nat → Nat → Res (Heap × ShHT) Bool
  | i, 0 =>
    shInsertWalk heap st k v h (2 * st.capacity + 2 * NBHD_SIZE + 2) i st.table
  | i, fuel + 1 =>
    match tget st.table ((h + i) % st.capacity) with
    | none => shAfterPlace heap st k v h i st.table
    | some a =>
      if (deref heap a).1 = k then .ok false (heap, st)
      else shInsertLoop heap st k v h (i + 1) fuel

/-- Member `insert` (lines 237-293), shared-pointer model. -/
def ShHT.insert (heap : Heap) (st : ShHT) (k v : Nat) : Res (Heap × ShHT) Bool :=
  shInsertLoop heap st k v (st.hash k st.capacity) 0 NBHD_SIZE

/-- The constructor (lines 123-135), shared-pointer model (the heap
starts empty; allocation order is settled by `constructTrace` above). -/
def ShHT.construct (customHashFn : Option (Nat → Nat)) (contiguousKey : Bool)
    (mnLF mxLF : ℚ) (expectedSize : Nat) (defaultHash : Nat → Nat) :
    Option ShHT :=
  let cap := if expectedSize < INITIAL_CPTY then INITIAL_CPTY else expectedSize
  if customHashFn.isNone && !contiguousKey then none
  else
    some { table := List.replicate cap none, capacity := cap, size := 0,
           maxLoadFactor := mxLF, minLoadFactor := mnLF,
           hashFn := customHashFn.getD defaultHash }

/-- The copy constructor (lines 141-142): every field is copied and
`table(obj.table.begin(), obj.table.end())` copies the vector of
`shared_ptr`s — the ADDRESSES, not the cells, so the new table aliases
the same entries. -/
def ShHT.copyCtor (obj : ShHT) : ShHT :=
  { table := obj.table, capacity := obj.capacity, size := obj.size,
    maxLoadFactor := obj.maxLoadFactor, minLoadFactor := obj.minLoadFactor,
    hashFn := obj.hashFn }

/-- The copy loop of `operator=` (lines 370-372): each occupied source
slot gets a FRESH cell holding a copy of the entry
(`std::make_shared<std::pair<Key,Value>>(*obj.table[i])`), allocated in
ascending index order. -/
def assignLoop (heap : Heap) : Slots Nat → Heap × Slots Nat
  | [] => (heap, [])
  | none :: rest =>
    let r := assignLoop heap rest
    (r.1, none :: r.2)
  | some a :: rest =>
    let r := assignLoop (heap ++ [deref heap a]) rest
    (r.1, some heap.length :: r.2)

/-- Copy assignment `operator=` (lines 360-373): the target's previous
table is discarded (`table.clear(); table.resize(capacity)`) and every
field is taken from `obj`, with deep-copied cells. -/
def ShHT.copyAssign (heap : Heap) (obj : ShHT) : Heap × ShHT :=
  let r := assignLoop heap obj.table
  (r.1,
   { table := r.2, capacity := obj.capacity, size := obj.size,
     maxLoadFactor := obj.maxLoadFactor, minLoadFactor := obj.minLoadFactor,
     hashFn := obj.hashFn })

/-- Writing `table[k] = newV` through `operator[]` (lines 347-354): the
returned reference is `getBucket(k)->second`, so an existing entry's
cell is overwritten in place (`bucket->second = newV`); an absent key is
first default-inserted via `insert(key, T())`.  (When that insert's
triggered resize displaces the fresh key out of its neighborhood, the
second `getBucket` returns `nullptr` and the C++ dereferences it —
undefined behavior, modelled as divergence.) -/
def ShHT.indexWrite (heap : Heap) (st : ShHT) (k newV : Nat) :
    Res (Heap × ShHT) Unit :=
  match ShHT.getBucket heap st k with
  | some a => .ok () (heap.set a ((deref heap a).1, newV), st)
  | none =>
    match ShHT.insert heap st k 0 with
    | .ok _ s =>
      match ShHT.getBucket s.1 s.2 k with
      | some a => .ok () (s.1.set a ((deref s.1 a).1, newV), s.2)
      | none => .div
    | .err e s => .err e s
    | .div => .div

/-! ### Scenario for claim C10: construct a table, insert (5,1), copy it
with the copy constructor, and write value 2 to key 5 through the
copy's `operator[]`: the original's entry changes too, because both
tables hold the same `shared_ptr`. -/

/-- Heap and table after constructing (custom hash `fn k = k`) and
inserting the entry (5, 1). -/
def c10A : Heap × ShHT :=
  match ShHT.insert []
      ((ShHT.construct (some fun k => k) true MIN_LOAD_FACTOR MAX_LOAD_FACTOR 32
        (fun k => k)).getD default) 5 1 with
  | .ok _ s => s
  | .err _ s => s
  | .div => ([], default)

/-- The copy-constructed table (aliasing `c10A`'s buckets). -/
def c10B : ShHT := ShHT.copyCtor c10A.2

/-- The heap after writing `B[5] = 2` through the copy. -/
def c10Heap2 : Heap :=
  match ShHT.indexWrite c10A.1 c10B 5 2 with
  | .ok _ s => s.1
  | .err _ s => s.1
  | .div => c10A.1

/-- The state `afterPlace` builds before consulting the capacity
controller (the entry placed at offset `i` of the neighborhood of `h`
in the array `tbl`, with `size` incremented); named so that theorems
can speak about it. -/
def placedState (st : HT) (k v h i : Nat) (tbl : Slots (Nat × Nat)) : HT :=
  { st with table := tset tbl ((h + i) % st.capacity) (some (k, v)),
            size := st.size + 1 }

/-- Whether key `k` occurs in no slot of the whole table (stronger than
`contains`, which only scans the neighborhood). -/
def keyAbsent (st : HT) (k : Nat) : Bool :=
  (List.range st.table.length).all fun j =>
    match tget st.table j with
    | none => true
    | some p => decide (p.1 ≠ k)

/-- Whether every bucket address of a shared-pointer table points below
the current heap top (i.e. at an allocated cell). -/
def addrsValid (heap : Heap) (st : ShHT) : Bool :=
  (List.range st.table.length).all fun j =>
    match tget st.table j with
    | none => true
    | some a => decide (a < heap.length)

/-- A freshly constructed table (capacity 32, custom hash `fn k = k`,
default load factors), used by witnesses. -/
def freshW : HT :=
  (HT.construct (some fun k => k) true MIN_LOAD_FACTOR MAX_LOAD_FACTOR 32
    (fun k => k)).getD default

/-- Table `freshW` after `insert(3, 7)`. -/
def freshWIns : HT := stepInsert freshW (3, 7)

/-- Heap and table produced by COPY-ASSIGNING `c10A` (fresh cells). -/
def c10D : Heap × ShHT := ShHT.copyAssign c10A.1 c10A.2

/-- The heap after writing `B[5] = 2` through the assigned copy. -/
def c10DHeap2 : Heap :=
  match ShHT.indexWrite c10D.1 c10D.2 5 2 with
  | .ok _ s => s.1
  | .err _ s => s.1
  | .div => c10D.1

/-- The table component returned by that write. -/
def c10DB2 : ShHT :=
  match ShHT.indexWrite c10D.1 c10D.2 5 2 with
  | .ok _ s => s.2
  | .err _ s => s.2
  | .div => c10D.2

/-! # Theorems -/

set_option maxRecDepth 4000000

theorem tget_nil {α : Type} (i : Nat) : tget ([] : Slots α) i = none := by
  simp [tget, List.getD]

theorem length_tset {α : Type} (l : Slots α) (i : Nat) (v : Option α) :
    (tset l i v).length = l.length := by
  simp [tset]

theorem tget_tset_self {α : Type} (l : Slots α) (i : Nat) (v : Option α)
    (h : i < l.length) : tget (tset l i v) i = v := by
  simp [tget, tset, List.getD, List.getElem?_set_self h]

theorem tget_tset_none_self {α : Type} (l : Slots α) (i : Nat) :
    tget (tset l i none) i = none := by
  by_cases h : i < l.length
  · exact tget_tset_self l i none h
  · have : l.set i none = l := List.set_eq_of_length_le (Nat.le_of_not_lt h)
    simp [tget, tset, this, List.getD, List.getElem?_eq_none (Nat.le_of_not_lt h)]

theorem tget_tset_ne {α : Type} (l : Slots α) (i j : Nat) (v : Option α)
    (h : i ≠ j) : tget (tset l i v) j = tget l j := by
  simp [tget, tset, List.getD, List.getElem?_set_ne h]

theorem tget_of_length_le {α : Type} (l : Slots α) (i : Nat)
    (h : l.length ≤ i) : tget l i = none := by
  simp [tget, List.getD, List.getElem?_eq_none h]

theorem tget_some_lt_length {α : Type} {l : Slots α} {i : Nat} {a : α}
    (h : tget l i = some a) : i < l.length := by
  by_contra hn
  rw [tget_of_length_le l i (Nat.le_of_not_lt hn)] at h
  exact Option.noConfusion h

/-- Evaluation bridge: `mkRat` of two naturals is their quotient in `ℚ` (bridge between the
evaluable form used in the model and the arithmetic form). -/
theorem mkRat_natCast_div (a b : Nat) : mkRat a b = (a : ℚ) / (b : ℚ) := by
  rw [Rat.mkRat_eq_div]
  norm_num

/-! ## Claim C1 — the hop invariant is broken by insert's displacement

The claim states that after every successful public operation every
present key resides at `(home(key) + offset) mod capacity` with
`0 ≤ offset < 32`.  The displacement step of `insert` (lines 266-271)
moves the occupant of the slot `NBHD_SIZE - 1` positions before a free
slot into that free slot WITHOUT checking that the occupant's own
neighborhood still covers the new position, so a run of plain public
calls breaks the invariant and makes the moved key unreachable. -/

/-- Claim C1: on a table of capacity 64 with custom hash `fn ≡ 0`, after
the 33 successful inserts of keys 1..33 the entry with key 2 sits at
index 32 — offset 32 ≥ H from its home 0 — so the hop invariant is
false and `contains(2)` fails even though key 2 was inserted and never
removed. -/
theorem c1_hop_invariant_broken :
    c1Final.capacity = 64 ∧ c1Final.size = 33 ∧
    tget c1Final.table 32 = some (2, 2) ∧ c1Final.hash 2 c1Final.capacity = 0 ∧
    hopInvB c1Final = false ∧ HT.contains c1Final 2 = false :=
  ⟨rfl, rfl, rfl, rfl, rfl, rfl⟩

/-! ## Claim C2 — insert throws InsertionFailed with no resize and no retry -/

/-- Claim C2 counterexample: `c2Tbl` (capacity 32, max load factor 1.0,
all 32 slots filled through the public API) rejects `insert(99, 0)` with
`InsertionFailed` and the COMPLETELY UNCHANGED table — no resize was
triggered (capacity still 32) and no retry happened — although the
capacity controller's grow to 64 succeeds and an insert after it
succeeds, i.e. resizing would have created room.  This refutes the
claim that the error reaches the caller only after a resize and a
failed retry. -/
theorem c2_insertionFailed_without_resize :
    HT.insert c2Tbl 99 0 = Res.err HTErr.insertionFailed c2Tbl ∧
    c2Tbl.capacity = 32 ∧
    HT.resize c2Tbl 64 = Res.ok () c2Resized ∧
    isOkTrue (HT.insert c2Resized 99 0) = true :=
  ⟨rfl, rfl, rfl, rfl⟩

/-! ## Claim C3 — a failed resize leaves the capacity field mutated -/

/-- Claim C3: the shrink triggered by `setLoadFactors(1.0, 0.9)` on
`c3Pre` (capacity 64, 33 entries inserted through the public API) fails
with `ResizeFailed`, and the state it leaves behind keeps the OLD slot
array and size but has `capacity` already overwritten with the target
32 (line 441 runs before migration and is never undone) — the caller
observes `capacity = 32` over a 64-slot array, not the prior valid
state. -/
theorem c3_resize_failure_mutates_capacity :
    c3Pre.capacity = 64 ∧ c3Pre.table.length = 64 ∧
    HT.setLoadFactors c3Pre 1 (mkRat 9 10) =
      Res.err HTErr.resizeFailed
        { c3Pre with capacity := 32, maxLoadFactor := 1,
                     minLoadFactor := mkRat 9 10 } :=
  ⟨rfl, rfl, rfl⟩

/-! ## Claim C4 — a duplicate key can be inserted -/

/-- Claim C4: with custom hash `fn ≡ 0`, after `insert(1,10)`,
`insert(0,11)`, `remove(1)` the table `c4Pre` still contains key 0 (at
index 1), yet `insert(0,12)` returns TRUE and stores a second entry
with key 0 at index 0: the second insert of a present key is not
rejected, the table changes, and `getValue(0)` yields 12 instead of the
first value 11 — and two occupied slots hold entries with equal keys. -/
theorem c4_duplicate_insert_returns_true :
    HT.contains c4Pre 0 = true ∧
    HT.insert c4Pre 0 12 = Res.ok true c4Post ∧
    tget c4Post.table 0 = some (0, 12) ∧
    tget c4Post.table 1 = some (0, 11) ∧
    HT.getValue c4Post 0 = some 12 :=
  ⟨rfl, rfl, rfl, rfl, rfl⟩

/-! ## Claim C5 — round-trip -/

/-- Claim C5 counterexample: key 200 occurs nowhere in `c5Pre` (a
48-entry table of capacity 64 built through the public API), yet after
`insert(200, 5)` — which SUCCEEDS, returning true, and triggers the grow
to 128 — `getValue(200)` is `none` and `contains(200)` is false: the
resize displaced the fresh entry to index 96, offset 32 from its home
64.  This refutes `insert(k,v) succeeds and immediately getValue(k) ==
v and contains(k) == true`. -/
theorem c5_insert_true_but_value_lost :
    keyAbsent c5Pre 200 = true ∧
    HT.insert c5Pre 200 5 = Res.ok true c5Post ∧
    c5Post.capacity = 128 ∧
    tget c5Post.table 96 = some (200, 5) ∧
    HT.getValue c5Post 200 = none ∧
    HT.contains c5Post 200 = false :=
  ⟨rfl, rfl, rfl, rfl, rfl, rfl⟩

/-! ## Claim C6 — load-factor bound after a triggered resize -/

/-- Claim C6 counterexample: with the valid load factors max = 1/100,
min = 1/200 installed by `setLoadFactors`, inserting one key into the
fresh 32-slot table `c6Pre` succeeds, triggers the grow to 64 (which
completes: the result is a normal `true` return with capacity 64), yet
afterwards `size/capacity = 1/64 > 1/100 = maxLoadFactor`: the bound
does NOT hold once the triggered resize completes, refuting the claim
for this valid pair of load factors. -/
theorem c6_load_factor_bound_fails_after_resize :
    c6Pre.capacity = 32 ∧ c6Pre.maxLoadFactor = mkRat 1 100 ∧
    c6Pre.minLoadFactor = mkRat 1 200 ∧
    HT.insert c6Pre 0 0 = Res.ok true c6Post ∧
    c6Post.capacity = 64 ∧ c6Post.size = 1 ∧
    decide (mkRat c6Post.size c6Post.capacity > c6Post.maxLoadFactor) = true :=
  ⟨rfl, rfl, rfl, rfl, rfl, rfl, rfl⟩

/-! ## Claim C7 — capacity floor -/

/-- Claim C7 counterexample: a table constructed with initial capacity
33 that becomes empty after one remove shrinks to (33+1)/2 = 17 — below
the configured initial capacity 33 AND below H = 32 (the shrink guard
compares against the global constant `INITIAL_CPTY = 32`, not the
configured capacity, and halving 33 undershoots H), refuting both
`capacity never drops below the configured initial/minimum capacity`
and `capacity >= H holds after every operation`. -/
theorem c7_capacity_drops_below_H :
    c7Pre.capacity = 33 ∧
    HT.remove c7Pre 0 = Res.ok (some 0) c7Post ∧
    c7Post.capacity = 17 ∧
    decide (c7Post.capacity < NBHD_SIZE) = true :=
  ⟨rfl, rfl, rfl, rfl⟩

/-! ## Claim C8 — the slot array is allocated before the key-type check -/

/-- Claim C8 counterexample: constructing with no custom hash function
and a non-contiguous key type does fail and no table is produced, but
the constructor's trace is `[allocSlots 32, keyCheckFail]`: the slot
array IS allocated (line 130, `table.resize(capacity)`) before the
check at line 132 throws, refuting `before any slot array is
allocated`. -/
theorem c8_alloc_before_check :
    constructTrace none false MIN_LOAD_FACTOR MAX_LOAD_FACTOR 32 (fun k => k) =
      ([CtorStep.allocSlots 32, CtorStep.keyCheckFail], none) :=
  rfl

/-! ## Claim C10 — the copy constructor aliases storage -/

/-- Claim C10 counterexample: `c10A` holds the entry (5, 1); `c10B` is
its COPY-CONSTRUCTED copy; writing `B[5] = 2` through the copy's
indexing shorthand changes the ORIGINAL table's entry as well
(`getValue` on the original now returns 2), because the copy
constructor copied the `shared_ptr`s rather than the entries.  This
refutes the claim that copy construction yields fully independent
storage. -/
theorem c10_copy_ctor_aliases :
    ShHT.getValue c10A.1 c10A.2 5 = some 1 ∧
    ShHT.getValue c10Heap2 c10B 5 = some 2 ∧
    ShHT.getValue c10Heap2 c10A.2 5 = some 2 :=
  ⟨rfl, rfl, rfl⟩

theorem add_mod_eq_iff (cap h i : Nat) (hh : h < cap) :
    (h + i) % cap = h ↔ i % cap = 0 := by
  have hcap : 0 < cap := Nat.lt_of_le_of_lt (Nat.zero_le h) hh
  have key : (h + i) % cap = (h + i % cap) % cap := by
    rw [Nat.add_mod, Nat.mod_eq_of_lt hh]
  have hr : i % cap < cap := Nat.mod_lt _ hcap
  rw [key]
  constructor
  · intro he
    rcases Nat.lt_or_ge (h + i % cap) cap with hlt | hge
    · rw [Nat.mod_eq_of_lt hlt] at he
      omega
    · rw [Nat.mod_eq_sub_mod hge, Nat.mod_eq_of_lt (by omega)] at he
      omega
  · intro hz
    rw [hz, Nat.add_zero, Nat.mod_eq_of_lt hh]

theorem resize_err_kind (st : HT) (n : Nat) (e : HTErr) (st2 : HT)
    (h : HT.resize st n = Res.err e st2) : e = HTErr.resizeFailed := by
  unfold HT.resize at h
  cases hg : resizeGo st.hashFn n st.table 0 st.capacity (List.replicate n none) <;>
    rw [hg] at h <;> simp_all

theorem afterPlace_err_kind (st : HT) (k v h i : Nat) (tbl : Slots (Nat × Nat))
    (e : HTErr) (st2 : HT)
    (he : afterPlace st k v h i tbl = Res.err e st2) : e = HTErr.resizeFailed := by
  unfold afterPlace at he
  set st1 : HT :=
    { st with table := tset tbl ((h + i) % st.capacity) (some (k, v)),
              size := st.size + 1 } with hst1
  by_cases hm : st1.maxLoadFactorExceeded
  · rw [if_pos hm] at he
    cases hr : st1.resize (2 * st1.capacity) <;> rw [hr] at he <;> simp_all
    exact resize_err_kind _ _ _ _ hr
  · rw [if_neg hm] at he
    simp_all

theorem insertWalk_chain_no_fail (st : HT) (k v h : Nat)
    (hh : h < st.capacity) :
    ∀ fuel i tbl, NBHD_SIZE ≤ i →
      (∀ m, NBHD_SIZE ≤ m → m ≤ i → ¬ m % st.capacity = 0) →
      tget tbl ((h + i) % st.capacity) = none →
      ∀ st2, insertWalk st k v h fuel i tbl ≠ Res.err HTErr.insertionFailed st2 := by
  intro fuel
  induction fuel with
  | zero => intro i tbl _ _ _ st2 hcon; exact Res.noConfusion hcon
  | succ fuel ih =>
    intro i tbl hi hinv hempty st2 hcon
    unfold insertWalk at hcon
    rw [if_neg, hempty] at hcon
    · by_cases hlt : i - (NBHD_SIZE - 1) < NBHD_SIZE
      · rw [if_pos hlt] at hcon
        exact absurd (afterPlace_err_kind _ _ _ _ _ _ _ _ hcon) (by simp)
      · rw [if_neg hlt] at hcon
        refine ih (i - (NBHD_SIZE - 1)) _ (Nat.le_of_not_lt hlt) ?_ ?_ st2 hcon
        · intro m hm him
          exact hinv m hm (Nat.le_trans him (Nat.sub_le _ _))
        · exact tget_tset_none_self _ _
    · rw [add_mod_eq_iff st.capacity h i hh]
      exact hinv i hi (Nat.le_refl i)

theorem insertWalk_fail_unchanged (st : HT) (k v h : Nat)
    (hh : h < st.capacity) :
    ∀ fuel i st2, NBHD_SIZE ≤ i →
      (∀ m, NBHD_SIZE ≤ m → m < i → ¬ m % st.capacity = 0) →
      insertWalk st k v h fuel i st.table = Res.err HTErr.insertionFailed st2 →
      st2 = st := by
  intro fuel
  induction fuel with
  | zero => intro i st2 _ _ hcon; exact Res.noConfusion hcon
  | succ fuel ih =>
    intro i st2 hi hinv hcon
    unfold insertWalk at hcon
    by_cases hdiv : (h + i) % st.capacity = h
    · rw [if_pos hdiv] at hcon
      have : ({ st with table := st.table } : HT) = st := rfl
      rw [this] at hcon
      exact (Res.err.injEq _ _ _ _).mp hcon |>.2.symm
    · rw [if_neg hdiv] at hcon
      have hnd : ¬ i % st.capacity = 0 := by
        rw [← add_mod_eq_iff st.capacity h i hh]
        exact hdiv
      cases hslot : tget st.table ((h + i) % st.capacity) with
      | none =>
        rw [hslot] at hcon
        by_cases hlt : i - (NBHD_SIZE - 1) < NBHD_SIZE
        · rw [if_pos hlt] at hcon
          exact absurd (afterPlace_err_kind _ _ _ _ _ _ _ _ hcon) (by simp)
        · rw [if_neg hlt] at hcon
          exact absurd hcon
            (insertWalk_chain_no_fail st k v h hh fuel _ _ (Nat.le_of_not_lt hlt)
              (fun m hm him =>
                hinv m hm
                  (Nat.lt_of_le_of_lt him
                    (Nat.sub_lt (Nat.lt_of_lt_of_le (by norm_num [NBHD_SIZE]) hi)
                      (by norm_num [NBHD_SIZE]))))
              (tget_tset_none_self _ _) st2)
      | some p =>
        rw [hslot] at hcon
        refine ih (i + 1) st2 (Nat.le_succ_of_le hi) ?_ hcon
        intro m hm him
        rcases Nat.lt_or_ge m i with hmi | hmi
        · exact hinv m hm hmi
        · have : m = i := by omega
          rw [this]
          exact hnd

theorem insertLoop_fail_unchanged (st : HT) (k v h : Nat)
    (hh : h < st.capacity) :
    ∀ fuel i st2, i + fuel = NBHD_SIZE →
      insertLoop st k v h i fuel = Res.err HTErr.insertionFailed st2 →
      st2 = st := by
  intro fuel
  induction fuel with
  | zero =>
    intro i st2 hif hcon
    have hi : i = NBHD_SIZE := by omega
    unfold insertLoop at hcon
    refine insertWalk_fail_unchanged st k v h hh _ i st2 (by omega) ?_ hcon
    intro m hm him
    omega
  | succ fuel ih =>
    intro i st2 hif hcon
    unfold insertLoop at hcon
    cases hslot : tget st.table ((h + i) % st.capacity) with
    | none =>
      rw [hslot] at hcon
      exact absurd (afterPlace_err_kind _ _ _ _ _ _ _ _ hcon) (by simp)
    | some p =>
      rw [hslot] at hcon
      dsimp only at hcon
      by_cases hk : p.1 = k
      · rw [if_pos hk] at hcon
        exact Res.noConfusion hcon
      · rw [if_neg hk] at hcon
        exact ih (i + 1) st2 (by omega) hcon

/-- Claim C2 (amended): when the neighborhood scan and the displacement
walk are both exhausted, `insert` throws `InsertionFailed` directly to
the caller: no resize is triggered, the insertion is not retried, and
the table is left COMPLETELY unchanged (in particular the walk's hops
never precede the throw). -/
theorem c2_insert_fail_leaves_table_unchanged (st : HT) (k v : Nat) (st2 : HT)
    (hcap : 0 < st.capacity)
    (h : HT.insert st k v = Res.err HTErr.insertionFailed st2) : st2 = st := by
  unfold HT.insert at h
  exact insertLoop_fail_unchanged st k v (st.hash k st.capacity)
    (Nat.mod_lt _ hcap) NBHD_SIZE 0 st2 (by omega) h

/-- Witness for `c2_insert_fail_leaves_table_unchanged` at the concrete
full table `c2Tbl`. -/
theorem c2_insert_fail_unchanged_witness :
    0 < c2Tbl.capacity ∧
    HT.insert c2Tbl 99 0 = Res.err HTErr.insertionFailed c2Tbl ∧
    c2Tbl = c2Tbl :=
  ⟨by decide, by rfl,
   c2_insert_fail_leaves_table_unchanged c2Tbl 99 0 c2Tbl (by decide) (by rfl)⟩

theorem resize_state_fields (st : HT) (n : Nat) (st2 : HT)
    (hs : (HT.resize st n).state? = some st2) :
    st2.capacity = n ∧ st2.size = st.size ∧
    st2.maxLoadFactor = st.maxLoadFactor ∧
    st2.minLoadFactor = st.minLoadFactor ∧ st2.hashFn = st.hashFn := by
  unfold HT.resize at hs
  cases hg : resizeGo st.hashFn n st.table 0 st.capacity (List.replicate n none) <;>
      rw [hg] at hs <;> simp_all [Res.state?] <;>
    exact hs ▸ ⟨rfl, rfl, rfl, rfl, rfl⟩

theorem removeLoop_capacity (st : HT) (k h : Nat) :
    ∀ fuel i st2, (removeLoop st k h i fuel).state? = some st2 →
      st2.capacity = st.capacity ∨
      (st2.capacity = (st.capacity + 1) / 2 ∧ INITIAL_CPTY < st.capacity ∧
        mkRat (st.size - 1 : Nat) st.capacity < st.minLoadFactor) := by
  intro fuel
  induction fuel with
  | zero =>
    intro i st2 hs
    unfold removeLoop at hs
    simp [Res.state?] at hs
    exact Or.inl (hs ▸ rfl)
  | succ fuel ih =>
    intro i st2 hs
    unfold removeLoop at hs
    cases hslot : tget st.table ((h + i) % st.capacity) with
    | none =>
      rw [hslot] at hs
      exact ih (i + 1) st2 hs
    | some p =>
      rw [hslot] at hs
      dsimp only at hs
      by_cases hk : p.1 = k
      · rw [if_pos hk] at hs
        set st1 : HT :=
          { st with table := tset st.table ((h + i) % st.capacity) none,
                    size := st.size - 1 } with hst1
        by_cases hcond : st1.minLoadFactorExceeded ∧ INITIAL_CPTY < st1.capacity
        · rw [if_pos hcond] at hs
          have hs1sz : st1.size = st.size - 1 := by rw [hst1]
          have hs1cap : st1.capacity = st.capacity := by rw [hst1]
          have hmin : mkRat (st.size - 1 : Nat) st.capacity < st.minLoadFactor := by
            have := hcond.1
            simp only [hst1, HT.minLoadFactorExceeded, decide_eq_true_eq] at this
            exact this
          cases hr : st1.resize ((st1.capacity + 1) / 2) with
          | ok a st3 =>
            rw [hr] at hs
            simp [Res.state?] at hs
            have hf := resize_state_fields st1 ((st1.capacity + 1) / 2) st3 (by
              rw [hr]; rfl)
            exact Or.inr ⟨hs ▸ (hf.1.trans (by rw [hs1cap])),
              hs1cap ▸ hcond.2, hmin⟩
          | err e st3 =>
            rw [hr] at hs
            simp [Res.state?] at hs
            have hf := resize_state_fields st1 ((st1.capacity + 1) / 2) st3 (by
              rw [hr]; rfl)
            exact Or.inr ⟨hs ▸ (hf.1.trans (by rw [hs1cap])),
              hs1cap ▸ hcond.2, hmin⟩
          | div =>
            rw [hr] at hs
            exact Option.noConfusion hs
        · rw [if_neg hcond] at hs
          simp [Res.state?] at hs
          exact Or.inl (hs ▸ rfl)
      · rw [if_neg hk] at hs
        exact ih (i + 1) st2 hs

/-- Claim C7 (amended): after any `remove` that returns or throws, either
the capacity is unchanged, or the post-remove load factor was below the
minimum AND the old capacity exceeded the GLOBAL constant
`INITIAL_CPTY = 32` (not the configured initial capacity), and the new
capacity is `(capacity + 1) / 2` (integer division).  Consequently the
capacity never drops below 17 — but it can drop below H = 32 and below
the configured initial capacity. -/
theorem c7_shrink_rule (st : HT) (k : Nat) (st2 : HT)
    (hs : (HT.remove st k).state? = some st2) :
    (st2.capacity = st.capacity ∨
      (st2.capacity = (st.capacity + 1) / 2 ∧ INITIAL_CPTY < st.capacity ∧
        mkRat (st.size - 1 : Nat) st.capacity < st.minLoadFactor)) ∧
    (NBHD_SIZE ≤ st.capacity → 17 ≤ st2.capacity) := by
  unfold HT.remove at hs
  have h := removeLoop_capacity st k (st.hash k st.capacity) NBHD_SIZE 0 st2 hs
  rcases h with hc | ⟨hc, hgt, hmin⟩
  · exact ⟨Or.inl hc, fun hge => hc ▸ le_trans (by norm_num [NBHD_SIZE]) hge⟩
  · refine ⟨Or.inr ⟨hc, hgt, hmin⟩, fun hge => ?_⟩
    rw [hc]
    have h33 : 33 ≤ st.capacity := hgt
    omega

/-- Claim C9: `setLoadFactors(max, min)` rejects exactly the argument
pairs with `min` or `max` outside (0, 1] or `max ≤ min`, throwing
`InvalidLoadFactors` with the table bit-for-bit unchanged (thresholds,
capacity and entries at their prior values); on valid arguments it
installs both thresholds and then resizes at most once, the new
capacity being determined by re-evaluating the two load-factor
conditions (grow to `2*capacity` if the max is exceeded, else shrink to
`(capacity+1)/2` if the min is undercut and `capacity > INITIAL_CPTY`,
else unchanged). -/
theorem c9_setLoadFactors_spec (st : HT) (mx mn : ℚ) :
    ((mn ≤ 0 ∨ 1 < mn ∨ mx ≤ 0 ∨ 1 < mx ∨ mx ≤ mn) →
      HT.setLoadFactors st mx mn = Res.err HTErr.invalidLoadFactors st) ∧
    (¬ (mn ≤ 0 ∨ 1 < mn ∨ mx ≤ 0 ∨ 1 < mx ∨ mx ≤ mn) →
      ∀ st2, (HT.setLoadFactors st mx mn).state? = some st2 →
        st2.maxLoadFactor = mx ∧ st2.minLoadFactor = mn ∧ st2.size = st.size ∧
        st2.capacity =
          (if mkRat st.size st.capacity > mx then 2 * st.capacity
           else if mkRat st.size st.capacity < mn ∧ INITIAL_CPTY < st.capacity then
             (st.capacity + 1) / 2
           else st.capacity)) := by
  constructor
  · intro hbad
    unfold HT.setLoadFactors
    rw [if_pos hbad]
  · intro hgood st2 hs
    unfold HT.setLoadFactors at hs
    rw [if_neg hgood] at hs
    set st1 : HT := { st with minLoadFactor := mn, maxLoadFactor := mx } with hst1
    by_cases hmax : st1.maxLoadFactorExceeded
    · rw [if_pos hmax] at hs
      have hmax2 : mkRat st.size st.capacity > mx := by
        have := hmax
        simp only [hst1, HT.maxLoadFactorExceeded, decide_eq_true_eq] at this
        exact this
      cases hr : st1.resize (2 * st1.capacity) with
      | ok a st3 =>
        rw [hr] at hs
        simp [Res.state?] at hs
        have hf := resize_state_fields st1 (2 * st1.capacity) st3 (by rw [hr]; rfl)
        subst hs
        rw [if_pos hmax2]
        exact ⟨hf.2.2.1, hf.2.2.2.1, hf.2.1, hf.1⟩
      | err e st3 =>
        rw [hr] at hs
        simp [Res.state?] at hs
        have hf := resize_state_fields st1 (2 * st1.capacity) st3 (by rw [hr]; rfl)
        subst hs
        rw [if_pos hmax2]
        exact ⟨hf.2.2.1, hf.2.2.2.1, hf.2.1, hf.1⟩
      | div =>
        rw [hr] at hs
        exact Option.noConfusion hs
    · rw [if_neg hmax] at hs
      have hmax2 : ¬ mkRat st.size st.capacity > mx := by
        intro hcon
        exact hmax (by simp only [hst1, HT.maxLoadFactorExceeded, decide_eq_true_eq]; exact hcon)
      by_cases hmin : st1.minLoadFactorExceeded ∧ INITIAL_CPTY < st1.capacity
      · rw [if_pos hmin] at hs
        have hmin2 : mkRat st.size st.capacity < mn ∧ INITIAL_CPTY < st.capacity := by
          have := hmin
          simp only [hst1, HT.minLoadFactorExceeded, decide_eq_true_eq] at this
          exact this
        cases hr : st1.resize ((st1.capacity + 1) / 2) with
        | ok a st3 =>
          rw [hr] at hs
          simp [Res.state?] at hs
          have hf := resize_state_fields st1 ((st1.capacity + 1) / 2) st3 (by rw [hr]; rfl)
          subst hs
          rw [if_neg hmax2, if_pos hmin2]
          exact ⟨hf.2.2.1, hf.2.2.2.1, hf.2.1, hf.1⟩
        | err e st3 =>
          rw [hr] at hs
          simp [Res.state?] at hs
          have hf := resize_state_fields st1 ((st1.capacity + 1) / 2) st3 (by rw [hr]; rfl)
          subst hs
          rw [if_neg hmax2, if_pos hmin2]
          exact ⟨hf.2.2.1, hf.2.2.2.1, hf.2.1, hf.1⟩
        | div =>
          rw [hr] at hs
          exact Option.noConfusion hs
      · rw [if_neg hmin] at hs
        simp [Res.state?] at hs
        have hmin2 : ¬ (mkRat st.size st.capacity < mn ∧ INITIAL_CPTY < st.capacity) := by
          intro hcon
          exact hmin ⟨by simp only [hst1, HT.minLoadFactorExceeded, decide_eq_true_eq]; exact hcon.1, hcon.2⟩
        subst hs
        rw [if_neg hmax2, if_neg hmin2]
        exact ⟨rfl, rfl, rfl, rfl⟩

/-- Witness for `c7_shrink_rule` at the concrete shrink from capacity 33
to 17. -/
theorem c7_shrink_rule_witness :
    (HT.remove c7Pre 0).state? = some c7Post ∧
    ((c7Post.capacity = c7Pre.capacity ∨
        (c7Post.capacity = (c7Pre.capacity + 1) / 2 ∧ INITIAL_CPTY < c7Pre.capacity ∧
          mkRat (c7Pre.size - 1 : Nat) c7Pre.capacity < c7Pre.minLoadFactor)) ∧
      (NBHD_SIZE ≤ c7Pre.capacity → 17 ≤ c7Post.capacity)) :=
  ⟨by rfl, c7_shrink_rule c7Pre 0 c7Post (by rfl)⟩

/-- Witness for `c9_setLoadFactors_spec` at the spec scenario
`setLoadFactors(max = 0.5, min = 0.6)`: rejected with
`InvalidLoadFactors`, state unchanged. -/
theorem c9_setLoadFactors_witness :
    ((mkRat 3 5 : ℚ) ≤ 0 ∨ 1 < (mkRat 3 5 : ℚ) ∨ (mkRat 1 2 : ℚ) ≤ 0 ∨
      1 < (mkRat 1 2 : ℚ) ∨ (mkRat 1 2 : ℚ) ≤ mkRat 3 5) ∧
    HT.setLoadFactors c7Pre (mkRat 1 2) (mkRat 3 5) =
      Res.err HTErr.invalidLoadFactors c7Pre :=
  ⟨by decide,
   (c9_setLoadFactors_spec c7Pre (mkRat 1 2) (mkRat 3 5)).1 (by decide)⟩

theorem tget_tset_sub {α : Type} (l : Slots α) (i : Nat) (v : Option α) (j : Nat)
    (q : α) (h : tget (tset l i v) j = some q) :
    tget l j = some q ∨ v = some q := by
  by_cases hij : i = j
  · subst hij
    by_cases hlen : i < l.length
    · right
      rw [tget_tset_self _ _ _ hlen] at h
      exact h
    · left
      rw [tset, List.set_eq_of_length_le (Nat.le_of_not_lt hlen)] at h
      exact h
  · left
    rwa [tget_tset_ne _ _ _ _ hij] at h

theorem afterPlace_ok_cases (st : HT) (k v h i : Nat) (tbl : Slots (Nat × Nat))
    (st2 : HT) (hok : afterPlace st k v h i tbl = Res.ok true st2) :
    ((placedState st k v h i tbl).maxLoadFactorExceeded = false ∧
      st2 = placedState st k v h i tbl) ∨
    ((placedState st k v h i tbl).maxLoadFactorExceeded = true ∧
      HT.resize (placedState st k v h i tbl) (2 * st.capacity) = Res.ok () st2) := by
  unfold afterPlace at hok
  rw [show
    ({ st with table := tset tbl ((h + i) % st.capacity) (some (k, v)),
               size := st.size + 1 } : HT) = placedState st k v h i tbl from rfl] at hok
  by_cases hm : (placedState st k v h i tbl).maxLoadFactorExceeded
  · rw [if_pos hm] at hok
    cases hr : (placedState st k v h i tbl).resize (2 * (placedState st k v h i tbl).capacity) with
    | ok a st3 =>
      rw [hr] at hok
      have h23 : st3 = st2 := by
        cases hok
        rfl
      right
      refine ⟨hm, ?_⟩
      rw [h23] at hr
      exact hr
    | err e st3 =>
      rw [hr] at hok
      exact Res.noConfusion hok
    | div =>
      rw [hr] at hok
      exact Res.noConfusion hok
  · rw [if_neg hm] at hok
    left
    refine ⟨by simpa using hm, ?_⟩
    cases hok
    rfl

theorem insertWalk_ok_shape (st : HT) (k v h : Nat) :
    ∀ fuel i tbl st2,
      tbl.length = st.table.length →
      (∀ j q, tget tbl j = some q → ∃ j0, tget st.table j0 = some q) →
      insertWalk st k v h fuel i tbl = Res.ok true st2 →
      ∃ tbl2 i2, i2 < NBHD_SIZE ∧ tbl2.length = st.table.length ∧
        (∀ j q, tget tbl2 j = some q → ∃ j0, tget st.table j0 = some q) ∧
        afterPlace st k v h i2 tbl2 = Res.ok true st2 := by
  intro fuel
  induction fuel with
  | zero =>
    intro i tbl st2 _ _ hcon
    exact Res.noConfusion hcon
  | succ fuel ih =>
    intro i tbl st2 hlen hsub hok
    unfold insertWalk at hok
    by_cases hdiv : (h + i) % st.capacity = h
    · rw [if_pos hdiv] at hok
      exact Res.noConfusion hok
    · rw [if_neg hdiv] at hok
      cases hslot : tget tbl ((h + i) % st.capacity) with
      | none =>
        rw [hslot] at hok
        have hlen2 : (tset (tset tbl ((h + i) % st.capacity)
            (tget tbl ((h + (i - (NBHD_SIZE - 1))) % st.capacity)))
            ((h + (i - (NBHD_SIZE - 1))) % st.capacity) none).length =
            st.table.length := by
          rw [length_tset, length_tset]
          exact hlen
        have hsub2 : ∀ j q, tget (tset (tset tbl ((h + i) % st.capacity)
            (tget tbl ((h + (i - (NBHD_SIZE - 1))) % st.capacity)))
            ((h + (i - (NBHD_SIZE - 1))) % st.capacity) none) j = some q →
            ∃ j0, tget st.table j0 = some q := by
          intro j q hq
          rcases tget_tset_sub _ _ _ _ _ hq with hq2 | hq2
          · rcases tget_tset_sub _ _ _ _ _ hq2 with hq3 | hq3
            · exact hsub _ _ hq3
            · exact hsub _ _ hq3
          · exact Option.noConfusion hq2
        by_cases hlt : i - (NBHD_SIZE - 1) < NBHD_SIZE
        · rw [if_pos hlt] at hok
          exact ⟨_, _, hlt, hlen2, hsub2, hok⟩
        · rw [if_neg hlt] at hok
          exact ih _ _ st2 hlen2 hsub2 hok
      | some p =>
        rw [hslot] at hok
        exact ih _ _ st2 hlen hsub hok

theorem insertLoop_ok_shape (st : HT) (k v h : Nat) :
    ∀ fuel i st2, i + fuel = NBHD_SIZE →
      insertLoop st k v h i fuel = Res.ok true st2 →
      ∃ tbl2 i2, i2 < NBHD_SIZE ∧ tbl2.length = st.table.length ∧
        (∀ j q, tget tbl2 j = some q → ∃ j0, tget st.table j0 = some q) ∧
        afterPlace st k v h i2 tbl2 = Res.ok true st2 := by
  intro fuel
  induction fuel with
  | zero =>
    intro i st2 hif hok
    unfold insertLoop at hok
    exact insertWalk_ok_shape st k v h _ i st.table st2 rfl
      (fun j q hq => ⟨j, hq⟩) hok
  | succ fuel ih =>
    intro i st2 hif hok
    unfold insertLoop at hok
    cases hslot : tget st.table ((h + i) % st.capacity) with
    | none =>
      rw [hslot] at hok
      exact ⟨st.table, i, by omega, rfl, fun j q hq => ⟨j, hq⟩, hok⟩
    | some p =>
      rw [hslot] at hok
      dsimp only at hok
      by_cases hk : p.1 = k
      · rw [if_pos hk] at hok
        exact absurd ((Res.ok.injEq _ _ _ _).mp hok).1 (by simp)
      · rw [if_neg hk] at hok
        exact ih (i + 1) st2 (by omega) hok


theorem insert_ok_shape (st : HT) (k v : Nat) (st2 : HT)
    (hok : HT.insert st k v = Res.ok true st2) :
    ∃ tbl2 i2, i2 < NBHD_SIZE ∧ tbl2.length = st.table.length ∧
      (∀ j q, tget tbl2 j = some q → ∃ j0, tget st.table j0 = some q) ∧
      afterPlace st k v (st.hash k st.capacity) i2 tbl2 = Res.ok true st2 := by
  unfold HT.insert at hok
  exact insertLoop_ok_shape st k v (st.hash k st.capacity) NBHD_SIZE 0 st2
    (by omega) hok

/-- Claim C6 (amended): after a successful insert, if `size/capacity >
maxLoadFactor`, a resize to `2*capacity` is triggered; and when the
load-factor bound already held before the insert AND
`maxLoadFactor * capacity ≥ 1/2`, the bound `size/capacity ≤
maxLoadFactor` again holds once the insert (including any triggered
resize) completes.  (For smaller `maxLoadFactor`, or from a state where
the bound had already been violated, the post-resize bound can fail.) -/
theorem c6_load_factor_bound (st : HT) (k v : Nat) (st2 : HT)
    (hcap : 0 < st.capacity)
    (hpre : (st.size : ℚ) ≤ st.maxLoadFactor * st.capacity)
    (hhalf : (1 : ℚ) / 2 ≤ st.maxLoadFactor * st.capacity)
    (hins : HT.insert st k v = Res.ok true st2) :
    (mkRat (st.size + 1 : Nat) st.capacity > st.maxLoadFactor →
      st2.capacity = 2 * st.capacity) ∧
    (st2.size : ℚ) / st2.capacity ≤ st2.maxLoadFactor := by
  obtain ⟨tbl2, i2, _, _, _, hap⟩ := insert_ok_shape st k v st2 hins
  set h := st.hash k st.capacity
  have hps : (placedState st k v h i2 tbl2).maxLoadFactorExceeded =
      decide (mkRat (st.size + 1 : Nat) st.capacity > st.maxLoadFactor) := rfl
  rcases afterPlace_ok_cases st k v h i2 tbl2 st2 hap with ⟨hm, hst⟩ | ⟨hm, hres⟩
  · rw [hps] at hm
    have hnot : ¬ mkRat (st.size + 1 : Nat) st.capacity > st.maxLoadFactor := by
      simpa using hm
    constructor
    · intro htrig
      exact absurd htrig hnot
    · have hle : mkRat (st.size + 1 : Nat) st.capacity ≤ st.maxLoadFactor :=
        not_lt.mp hnot
      rw [mkRat_natCast_div] at hle
      have hsz : st2.size = st.size + 1 := by rw [hst]; rfl
      have hcp : st2.capacity = st.capacity := by rw [hst]; rfl
      have hml : st2.maxLoadFactor = st.maxLoadFactor := by rw [hst]; rfl
      rw [hsz, hcp, hml]
      exact_mod_cast hle
  · have hf := resize_state_fields (placedState st k v h i2 tbl2)
      (2 * st.capacity) st2 (by rw [hres]; rfl)
    have hsz : st2.size = st.size + 1 := hf.2.1
    have hml : st2.maxLoadFactor = st.maxLoadFactor := hf.2.2.1
    refine ⟨fun _ => hf.1, ?_⟩
    rw [hsz, hml, hf.1]
    have hc2 : (0 : ℚ) < ((2 * st.capacity : Nat) : ℚ) := by
      have : 0 < 2 * st.capacity := by omega
      exact_mod_cast this
    rw [div_le_iff₀ hc2]
    have hexp : ((2 * st.capacity : Nat) : ℚ) = 2 * (st.capacity : ℚ) := by
      push_cast
      ring
    rw [hexp]
    have hcast : ((st.size + 1 : Nat) : ℚ) = (st.size : ℚ) + 1 := by push_cast; ring
    rw [hcast]
    rcases Nat.eq_zero_or_pos st.size with hz | hpos
    · rw [hz]
      push_cast
      nlinarith [hhalf]
    · have h1 : (1 : ℚ) ≤ (st.size : ℚ) := by exact_mod_cast hpos
      nlinarith [hpre, h1]

theorem getValueLoop_finds (st : HT) (k h : Nat) :
    ∀ fuel i v,
      (∀ j q, tget st.table j = some q → q.1 = k → q.2 = v) →
      (∃ i0, i ≤ i0 ∧ i0 < i + fuel ∧
        tget st.table ((h + i0) % st.capacity) = some (k, v)) →
      getValueLoop st k h i fuel = some v := by
  intro fuel
  induction fuel with
  | zero =>
    intro i v _ ⟨i0, h1, h2, _⟩
    omega
  | succ fuel ih =>
    intro i v huniq ⟨i0, h1, h2, h3⟩
    unfold getValueLoop
    cases hslot : tget st.table ((h + i) % st.capacity) with
    | some p =>
      dsimp only
      by_cases hk : p.1 = k
      · rw [if_pos hk]
        rw [huniq _ _ hslot hk]
      · rw [if_neg hk]
        refine ih (i + 1) v huniq ⟨i0, ?_, by omega, h3⟩
        rcases Nat.eq_or_lt_of_le h1 with he | hlt
        · exfalso
          rw [he] at hslot
          rw [hslot] at h3
          cases h3
          exact hk rfl
        · omega
    | none =>
      refine ih (i + 1) v huniq ⟨i0, ?_, by omega, h3⟩
      rcases Nat.eq_or_lt_of_le h1 with he | hlt
      · exfalso
        rw [he] at hslot
        rw [hslot] at h3
        exact Option.noConfusion h3
      · omega

theorem containsLoop_finds (st : HT) (k h : Nat) :
    ∀ fuel i,
      (∃ i0, i ≤ i0 ∧ i0 < i + fuel ∧
        ∃ v, tget st.table ((h + i0) % st.capacity) = some (k, v)) →
      containsLoop st k h i fuel = true := by
  intro fuel
  induction fuel with
  | zero =>
    intro i ⟨i0, h1, h2, _⟩
    omega
  | succ fuel ih =>
    intro i ⟨i0, h1, h2, v, h3⟩
    unfold containsLoop
    cases hslot : tget st.table ((h + i) % st.capacity) with
    | some p =>
      dsimp only
      by_cases hk : p.1 = k
      · rw [if_pos hk]
      · rw [if_neg hk]
        refine ih (i + 1) ⟨i0, ?_, by omega, v, h3⟩
        rcases Nat.eq_or_lt_of_le h1 with he | hlt
        · exfalso
          rw [he] at hslot
          rw [hslot] at h3
          cases h3
          exact hk rfl
        · omega
    | none =>
      refine ih (i + 1) ⟨i0, ?_, by omega, v, h3⟩
      rcases Nat.eq_or_lt_of_le h1 with he | hlt
      · exfalso
        rw [he] at hslot
        rw [hslot] at h3
        exact Option.noConfusion h3
      · omega

/-- Claim C5 (amended): for a key `k` occurring nowhere in the table, if
`insert(k, v)` returns true and did not trigger a resize (the capacity
is unchanged), then immediately `getValue(k) = v` and
`contains(k) = true`.  (`insert` may instead throw `InsertionFailed`,
and when it does trigger a resize the fresh entry can be displaced out
of its own neighborhood and become unretrievable.) -/
theorem keyAbsent_spec (st : HT) (k : Nat) (h : keyAbsent st k = true) :
    ∀ j q, tget st.table j = some q → q.1 ≠ k := by
  intro j q hq
  have hjl : j < st.table.length := tget_some_lt_length hq
  have hall := List.all_eq_true.mp h j (List.mem_range.mpr hjl)
  rw [hq] at hall
  simpa using hall

theorem c5_roundtrip_no_resize (st : HT) (k v : Nat) (st2 : HT)
    (hlen : st.table.length = st.capacity) (hcap : 0 < st.capacity)
    (habs : keyAbsent st k = true)
    (hins : HT.insert st k v = Res.ok true st2)
    (hnores : st2.capacity = st.capacity) :
    HT.getValue st2 k = some v ∧ HT.contains st2 k = true := by
  obtain ⟨tbl2, i2, hi2, hlen2, hsub, hap⟩ := insert_ok_shape st k v st2 hins
  have habs2 : ∀ j q, tget st.table j = some q → q.1 ≠ k := keyAbsent_spec st k habs
  rcases afterPlace_ok_cases st k v (st.hash k st.capacity) i2 tbl2 st2 hap with
    ⟨_, hst⟩ | ⟨_, hres⟩
  · have hx : (st.hash k st.capacity + i2) % st.capacity < tbl2.length := by
      rw [hlen2, hlen]
      exact Nat.mod_lt _ hcap
    have hhit : tget st2.table
        ((st.hash k st.capacity + i2) % st.capacity) = some (k, v) := by
      rw [hst]
      exact tget_tset_self _ _ _ hx
    have huniq : ∀ j q, tget st2.table j = some q → q.1 = k → q.2 = v := by
      intro j q hq hqk
      rw [hst] at hq
      rcases tget_tset_sub _ _ _ _ _ hq with hq2 | hq2
      · exact absurd hqk (by
          obtain ⟨j0, hj0⟩ := hsub _ _ hq2
          exact habs2 j0 q hj0)
      · cases hq2
        rfl
    have hcapeq : st2.capacity = st.capacity := by rw [hst]; rfl
    have hhash : st2.hash k st2.capacity = st.hash k st.capacity := by
      rw [hst]
      rfl
    constructor
    · unfold HT.getValue
      refine getValueLoop_finds st2 k (st2.hash k st2.capacity) NBHD_SIZE 0 v
        huniq ⟨i2, Nat.zero_le _, by omega, ?_⟩
      rw [hhash, hcapeq]
      exact hhit
    · unfold HT.contains
      refine containsLoop_finds st2 k (st2.hash k st2.capacity) NBHD_SIZE 0
        ⟨i2, Nat.zero_le _, by omega, v, ?_⟩
      rw [hhash, hcapeq]
      exact hhit
  · exfalso
    have hf := resize_state_fields (placedState st k v (st.hash k st.capacity) i2 tbl2)
      (2 * st.capacity) st2 (by rw [hres]; rfl)
    rw [hnores] at hf
    omega

/-- Witness for `c5_roundtrip_no_resize` at a fresh table and
`insert(3, 7)`. -/
theorem c5_roundtrip_witness :
    freshW.table.length = freshW.capacity ∧ 0 < freshW.capacity ∧
    keyAbsent freshW 3 = true ∧
    HT.insert freshW 3 7 = Res.ok true freshWIns ∧
    freshWIns.capacity = freshW.capacity ∧
    (HT.getValue freshWIns 3 = some 7 ∧ HT.contains freshWIns 3 = true) :=
  ⟨by rfl, by decide, by rfl, by rfl, by rfl,
   c5_roundtrip_no_resize freshW 3 7 freshWIns (by rfl) (by decide) (by rfl)
     (by rfl) (by rfl)⟩

/-- Witness for `c6_load_factor_bound` at a fresh table and
`insert(3, 7)` (no resize is needed, the bound holds directly). -/
theorem c6_load_factor_bound_witness :
    0 < freshW.capacity ∧
    (freshW.size : ℚ) ≤ freshW.maxLoadFactor * freshW.capacity ∧
    (1 : ℚ) / 2 ≤ freshW.maxLoadFactor * freshW.capacity ∧
    HT.insert freshW 3 7 = Res.ok true freshWIns ∧
    ((mkRat (freshW.size + 1 : Nat) freshW.capacity > freshW.maxLoadFactor →
        freshWIns.capacity = 2 * freshW.capacity) ∧
      (freshWIns.size : ℚ) / freshWIns.capacity ≤ freshWIns.maxLoadFactor) :=
  ⟨by decide,
   by
     show ((0 : Nat) : ℚ) ≤ mkRat 3 4 * ((32 : Nat) : ℚ)
     rw [Rat.mkRat_eq_div]
     push_cast
     norm_num,
   by
     show (1 : ℚ) / 2 ≤ mkRat 3 4 * ((32 : Nat) : ℚ)
     rw [Rat.mkRat_eq_div]
     push_cast
     norm_num,
   by rfl,
   c6_load_factor_bound freshW 3 7 freshWIns (by decide)
     (by
       show ((0 : Nat) : ℚ) ≤ mkRat 3 4 * ((32 : Nat) : ℚ)
       rw [Rat.mkRat_eq_div]
       push_cast
       norm_num)
     (by
       show (1 : ℚ) / 2 ≤ mkRat 3 4 * ((32 : Nat) : ℚ)
       rw [Rat.mkRat_eq_div]
       push_cast
       norm_num)
     (by rfl)⟩

/-- Claim C8 (amended): constructing with no custom hash function and a
key type without a stable contiguous representation fails with a
configuration error at table-creation time — the exception leaves the
constructor, so the table is never produced, and the check runs exactly
once, at construction — but the slot array IS allocated (line 130)
before the check at line 132 throws; the transient array is destroyed
during unwinding. -/
theorem c8_construction_fail_fast (mnLF mxLF : ℚ) (es : Nat) (dflt : Nat → Nat) :
    HT.construct none false mnLF mxLF es dflt = none ∧
    constructTrace none false mnLF mxLF es dflt =
      ([CtorStep.allocSlots (if es < INITIAL_CPTY then INITIAL_CPTY else es),
        CtorStep.keyCheckFail], none) :=
  ⟨rfl, rfl⟩

theorem tget_cons_succ {α : Type} (x : Option α) (l : Slots α) (j : Nat) :
    tget (x :: l) (j + 1) = tget l j := rfl

theorem assignLoop_preserves (src : Slots Nat) :
    ∀ (heap : Heap) (i : Nat), i < heap.length →
      (assignLoop heap src).1.getD i (0, 0) = heap.getD i (0, 0) := by
  induction src with
  | nil => intro heap i _; rfl
  | cons x rest ih =>
    intro heap i hi
    cases x with
    | none =>
      show (assignLoop heap rest).1.getD i (0, 0) = heap.getD i (0, 0)
      exact ih heap i hi
    | some a =>
      show (assignLoop (heap ++ [deref heap a]) rest).1.getD i (0, 0) =
        heap.getD i (0, 0)
      rw [ih (heap ++ [deref heap a]) i (by simp; omega)]
      unfold List.getD
      rw [List.get?_append hi]

theorem assignLoop_fresh (src : Slots Nat) :
    ∀ (heap : Heap) (j a : Nat),
      tget (assignLoop heap src).2 j = some a → heap.length ≤ a := by
  induction src with
  | nil =>
    intro heap j a h
    rw [show (assignLoop heap List.nil).2 = [] from rfl, tget_nil] at h
    exact Option.noConfusion h
  | cons x rest ih =>
    intro heap j a h
    cases x with
    | none =>
      cases j with
      | zero =>
        exact Option.noConfusion h
      | succ j =>
        rw [show (assignLoop heap (none :: rest)).2 =
          none :: (assignLoop heap rest).2 from rfl, tget_cons_succ] at h
        exact ih heap j a h
    | some b =>
      cases j with
      | zero =>
        rw [show tget (assignLoop heap (some b :: rest)).2 0 =
          some heap.length from rfl] at h
        cases h
        exact Nat.le_refl _
      | succ j =>
        rw [show (assignLoop heap (some b :: rest)).2 =
          some heap.length :: (assignLoop (heap ++ [deref heap b]) rest).2
          from rfl, tget_cons_succ] at h
        have := ih (heap ++ [deref heap b]) j a h
        simp at this
        omega

theorem shGetBucketLoop_mem (heap : Heap) (st : ShHT) (k h : Nat) :
    ∀ fuel i a, shGetBucketLoop heap st k h i fuel = some a →
      ∃ j, tget st.table j = some a := by
  intro fuel
  induction fuel with
  | zero =>
    intro i a hcon
    exact Option.noConfusion hcon
  | succ fuel ih =>
    intro i a hb
    unfold shGetBucketLoop at hb
    cases hslot : tget st.table ((h + i) % st.capacity) with
    | some a2 =>
      rw [hslot] at hb
      dsimp only at hb
      by_cases hk : (deref heap a2).1 = k
      · rw [if_pos hk] at hb
        cases hb
        exact ⟨(h + i) % st.capacity, hslot⟩
      · rw [if_neg hk] at hb
        exact ih (i + 1) a hb
    | none =>
      rw [hslot] at hb
      exact ih (i + 1) a hb

theorem shGetValueLoop_congr (heap heap2 : Heap) (st : ShHT) (k h : Nat)
    (hag : ∀ j a, tget st.table j = some a → deref heap2 a = deref heap a) :
    ∀ fuel i, shGetValueLoop heap2 st k h i fuel = shGetValueLoop heap st k h i fuel := by
  intro fuel
  induction fuel with
  | zero => intro i; rfl
  | succ fuel ih =>
    intro i
    unfold shGetValueLoop
    cases hslot : tget st.table ((h + i) % st.capacity) with
    | some a =>
      dsimp only
      rw [hag _ _ hslot, ih (i + 1)]
    | none =>
      exact ih (i + 1)

theorem getD_set_ne_pair (l : Heap) (i j : Nat) (c : Nat × Nat) (hij : i ≠ j) :
    (l.set i c).getD j (0, 0) = l.getD j (0, 0) := by
  unfold List.getD
  rw [List.get?_set_ne _ _ hij]

/-- Claim C10 (amended): copy ASSIGNMENT deep-copies every entry into
fresh cells, so afterwards writing a value to a present key through the
assigned copy's indexing shorthand never changes any entry of the
source table (every lookup on the source is unaffected).  Copy
CONSTRUCTION, by contrast, copies the bucket pointers, so the two
tables alias the same entries (see the counterexample). -/
theorem c10_assign_deep_copy_independent (heap : Heap) (A : ShHT) (k newV : Nat)
    (heap2 : Heap) (B2 : ShHT) (a0 : Nat)
    (hvalid : addrsValid heap A = true)
    (hfound : ShHT.getBucket (ShHT.copyAssign heap A).1 (ShHT.copyAssign heap A).2 k =
      some a0)
    (hwrite : ShHT.indexWrite (ShHT.copyAssign heap A).1 (ShHT.copyAssign heap A).2
        k newV = Res.ok () (heap2, B2)) :
    ∀ q, ShHT.getValue heap2 A q = ShHT.getValue heap A q := by
  intro q
  have hvalid2 : ∀ j a, tget A.table j = some a → a < heap.length := by
    intro j a hj
    have hjl : j < A.table.length := tget_some_lt_length hj
    have hall := List.all_eq_true.mp hvalid j (List.mem_range.mpr hjl)
    rw [hj] at hall
    simpa using hall
  unfold ShHT.indexWrite at hwrite
  rw [hfound] at hwrite
  have hh2 : heap2 = (ShHT.copyAssign heap A).1.set a0
      ((deref (ShHT.copyAssign heap A).1 a0).1, newV) := by
    cases hwrite
    rfl
  have ha0 : heap.length ≤ a0 := by
    obtain ⟨j, hj⟩ := shGetBucketLoop_mem (ShHT.copyAssign heap A).1
      (ShHT.copyAssign heap A).2 k
      ((ShHT.copyAssign heap A).2.hash k (ShHT.copyAssign heap A).2.capacity)
      NBHD_SIZE 0 a0 hfound
    exact assignLoop_fresh A.table heap j a0 hj
  have hag : ∀ j a, tget A.table j = some a → deref heap2 a = deref heap a := by
    intro j a hj
    have hal : a < heap.length := hvalid2 j a hj
    have hne : a0 ≠ a := by omega
    have h1 : deref heap2 a = deref (ShHT.copyAssign heap A).1 a := by
      rw [hh2]
      exact getD_set_ne_pair _ _ _ _ hne
    rw [h1]
    exact assignLoop_preserves A.table heap a hal
  unfold ShHT.getValue
  exact shGetValueLoop_congr heap heap2 A q (A.hash q A.capacity) hag NBHD_SIZE 0

/-- Witness for `c10_assign_deep_copy_independent` at the concrete
one-entry table `c10A`: write `B[5] = 2` through the ASSIGNED copy and
observe that every lookup on the original is unchanged. -/
theorem c10_assign_independent_witness :
    addrsValid c10A.1 c10A.2 = true ∧
    ShHT.getBucket (ShHT.copyAssign c10A.1 c10A.2).1
      (ShHT.copyAssign c10A.1 c10A.2).2 5 = some 1 ∧
    ShHT.indexWrite (ShHT.copyAssign c10A.1 c10A.2).1
      (ShHT.copyAssign c10A.1 c10A.2).2 5 2 = Res.ok () (c10DHeap2, c10DB2) ∧
    ∀ q, ShHT.getValue c10DHeap2 c10A.2 q = ShHT.getValue c10A.1 c10A.2 q :=
  ⟨by rfl, by rfl, by rfl,
   c10_assign_deep_copy_independent c10A.1 c10A.2 5 2 c10DHeap2 c10DB2 1
     (by rfl) (by rfl) (by rfl)⟩
